import Mathlib

/-!
Verification of the edn2csv program (src/main.rs).

The program reads line-delimited EDN values, keeps the top-level Maps as
records, collects the Keyword keys of those maps into a `BTreeSet<String>`
of columns, and finally writes a tab-separated table: one header row
listing the columns, then one row per record with the rendered value of
each column (empty field when the record has no such key).

The embedding below translates the Rust source faithfully:
  * `Value` mirrors `edn::Value` (the external parser's value type);
    the `float` payload is the host's default decimal rendering of the
    `f64`, since the `Display` of the number itself is external to the
    program.
  * `render` mirrors `impl fmt::Display for EdnPrinter`, including the
    `try_fold` first-element/comma discipline of the collection cases.
  * `step`/`ingest` mirror the loop in `run` over enumerated input lines;
    a line is `blank` (parser produced no value), a parsed `value`, or a
    parse `failure` carrying the parser's `lo`/`hi`/`message` diagnostic.
  * `run`/`mainRun` mirror `run`/`main`: the header and rows written to
    standard output (as records of fields; the CSV writer's low-level
    escaping is an external collaborator), the diagnostics written to
    standard error, and the process exit code.
-/

namespace Edn2Csv

/-- Mirror of `edn::Value`. The `float` constructor carries the default
decimal rendering of the underlying `f64`, which is produced by the
external standard library `Display` implementation. -/
inductive Value : Type where
  | nil
  | boolean (b : Bool)
  | string (s : String)
  | char (c : Char)
  | symbol (s : String)
  | keyword (k : String)
  | integer (i : Int)
  | float (repr : String)
  | list (vs : List Value)
  | vector (vs : List Value)
  | map (entries : List (Value × Value))
  | set (vs : List Value)
  | tagged (tag : String) (v : Value)

/-- A parsed map, as the association list of its entries (the `BTreeMap`
iterated in key order; the embedding is agnostic to the order). -/
abbrev EdnMap := List (Value × Value)

def Value.isMap : Value → Bool
  | .map _ => true
  | _ => false

def Value.isKeyword : Value → Bool
  | .keyword _ => true
  | _ => false

mutual

/-- Mirror of `impl fmt::Display for EdnPrinter` in src/main.rs. -/
def render : Value → String
  | .nil => "nil"
  | .boolean b => if b then "true" else "false"
  | .string s => s
  | .char c => String.singleton c
  | .symbol s => s
  | .keyword k => k
  | .integer i => toString i
  | .float r => r
  | .list vs => "(" ++ renderElems true vs ++ ")"
  | .vector vs => "[" ++ renderElems true vs ++ "]"
  | .map es => "\x7b" ++ renderEntries true es ++ "\x7d"
  | .set vs => "#\x7b" ++ renderElems true vs ++ "\x7d"
  | .tagged t v => "#" ++ t ++ " " ++ render v

/-- Mirror of the `try_fold(true, ...)` loops of the `List`, `Vector` and
`Set` arms: a comma before every element except the first. -/
def renderElems : Bool → List Value → String
  | _, [] => ""
  | isFirst, v :: rest =>
    (if isFirst then "" else ",") ++ render v ++ renderElems false rest

/-- Mirror of the `try_fold(true, ...)` loop of the `Map` arm: a comma
before every pair except the first, key and value separated by a space. -/
def renderEntries : Bool → List (Value × Value) → String
  | _, [] => ""
  | isFirst, (k, v) :: rest =>
    (if isFirst then "" else ",") ++ render k ++ " " ++ render v ++ renderEntries false rest

end

/-- Spec-side definition ("comma-joined"): the elements of the list joined
with a single comma between consecutive elements. -/
def commaJoin : List String → String
  | [] => ""
  | [s] => s
  | s :: rest => s ++ "," ++ commaJoin rest

/-- Mirror of `edn::parser::Error`: byte offsets and message. -/
structure ParseErr where
  lo : Nat
  hi : Nat
  message : String

/-- Mirror of the program's `ParseError`: the 0-based line number paired
with the parser's diagnostic. -/
structure ParseError where
  linenum : Nat
  cause : ParseErr

/-- What the external parser produced for one input line: nothing (blank
line), a value, or a parse failure. -/
inductive LineResult where
  | blank
  | value (v : Value)
  | failure (e : ParseErr)

def LineResult.isFailure : LineResult → Bool
  | .failure _ => true
  | _ => false

/-- The accumulators of the ingestion loop in `run`: the retained records,
the `BTreeSet<String>` of columns (modelled as a sorted duplicate-free
list), and the diagnostics printed to standard error so far. -/
structure IngestState where
  records : List EdnMap
  columns : List String
  diags : List String

/-- Lexicographic comparison of character lists: the order `Ord` gives
Rust strings (byte-wise comparison of UTF-8 agrees with code-point
comparison). -/
def charListLt : List Char → List Char → Bool
  | [], [] => false
  | [], _ :: _ => true
  | _ :: _, [] => false
  | a :: as, b :: bs =>
    if a < b then true
    else if b < a then false
    else charListLt as bs

/-- The `Ord`-comparison `BTreeSet<String>` sorts by. -/
def strLt (a b : String) : Bool :=
  charListLt a.data b.data

/-- Ordered insertion into the sorted-list model of `BTreeSet<String>`. -/
def insertCol (c : String) : List String → List String
  | [] => [c]
  | x :: rest =>
    if strLt c x then c :: x :: rest
    else if c = x then x :: rest
    else x :: insertCol c rest

/-- Mirror of `columns.extend(keys)`. -/
def insertAll (ks : List String) (cs : List String) : List String :=
  ks.foldl (fun acc k => insertCol k acc) cs

/-- Mirror of the `filter_map` over `m.keys()` that keeps the names of
Keyword keys. -/
def keywordKeys (m : EdnMap) : List String :=
  m.filterMap (fun p =>
    match p.1 with
    | .keyword s => some s
    | _ => none)

/-- The diagnostics printed by the same `filter_map`: one line per
non-Keyword key, showing the rendered key. -/
def nonKeywordDiags (m : EdnMap) : List String :=
  m.filterMap (fun p =>
    match p.1 with
    | .keyword _ => none
    | _ => some ("Skipping non keyword key: " ++ render p.1))

/-- One iteration of the ingestion loop in `run`, at 0-based line `idx`.
A parse failure aborts with the program's `ParseError` (the diagnostics
printed so far ride along, since they are already on standard error). -/
def step (idx : Nat) (st : IngestState) :
    LineResult → Except (ParseError × List String) IngestState
  | .blank => .ok st
  | .failure e => .error (⟨idx, e⟩, st.diags)
  | .value (.map m) =>
      .ok ⟨st.records ++ [m], insertAll (keywordKeys m) st.columns,
           st.diags ++ nonKeywordDiags m⟩
  | .value _ =>
      .ok ⟨st.records, st.columns,
           st.diags ++ ["Skipping non map on line " ++ toString idx]⟩

/-- The whole ingestion loop, starting at line index `idx`. -/
def ingest : Nat → IngestState → List LineResult →
    Except (ParseError × List String) IngestState
  | _, st, [] => .ok st
  | idx, st, lr :: rest =>
    match step idx st lr with
    | .error e => .error e
    | .ok st2 => ingest (idx + 1) st2 rest

/-- Does `k` equal `Value.keyword c`?  This is the only comparison
`r.get(c)` performs, since every column lookup key is a Keyword. -/
def isKeywordNamed (c : String) : Value → Bool
  | .keyword s => s == c
  | _ => false

/-- Mirror of `r.get(c)` for the column Keyword `c`: the value of the
entry whose key is `Value.keyword c`, if any. -/
def getKeyword (m : EdnMap) (c : String) : Option Value :=
  match m with
  | [] => none
  | (k, v) :: rest => if isKeywordNamed c k then some v else getKeyword rest c

/-- One emitted cell: the rendered value of the column's key, or the
empty field when the record has no such key. -/
def cellFor (m : EdnMap) (c : String) : String :=
  match getKeyword m c with
  | some v => render v
  | none => ""

/-- One emitted row: one cell per column, in column order. -/
def rowFor (cols : List String) (m : EdnMap) : List String :=
  cols.map (cellFor m)

/-- What a successful run writes: the header record, the data records
(each a list of fields handed to the CSV writer), and the standard-error
diagnostics. -/
structure RunOutput where
  header : List String
  rows : List (List String)
  diags : List String

/-- Mirror of `run`: ingest every line, then emit the header and one row
per record.  Nothing is written to standard output before ingestion has
fully succeeded. -/
def run (input : List LineResult) : Except (ParseError × List String) RunOutput :=
  match ingest 0 ⟨[], [], []⟩ input with
  | .error e => .error e
  | .ok st => .ok ⟨st.columns, st.records.map (rowFor st.columns), st.diags⟩

/-- Mirror of `impl fmt::Display for ParseError`:
`"{} ({}, {}): {} "` applied to line number, `lo`, `hi`, message. -/
def errMessage (e : ParseError) : String :=
  toString e.linenum ++ " (" ++ toString e.cause.lo ++ ", " ++ toString e.cause.hi
    ++ "): " ++ e.cause.message ++ " "

/-- The observable outcome of the process: exit code, the records written
to standard output, and the lines written to standard error. -/
structure ProgResult where
  exitCode : Nat
  stdout : List (List String)
  stderr : List String

/-- Mirror of `main`: exit 0 on success; on error print
`error: <message>` to standard error and exit 1, with nothing on
standard output. -/
def mainRun (input : List LineResult) : ProgResult :=
  match run input with
  | .ok out => ⟨0, out.header :: out.rows, out.diags⟩
  | .error (e, ds) => ⟨1, [], ds ++ ["error: " ++ errMessage e]⟩

/-- The maps of the lines whose top-level parsed value is a Map — exactly
the records the ingestion loop retains. -/
def retainedMaps : List LineResult → List EdnMap
  | [] => []
  | .value (.map m) :: rest => m :: retainedMaps rest
  | _ :: rest => retainedMaps rest

/-! ### The printer joins elements with commas -/

lemma renderElems_false_comma (s : String) :
    ∀ vs : List Value, s ++ renderElems false vs = commaJoin (s :: vs.map render)
  | [] => by simp [renderElems, commaJoin, String.append_empty]
  | v :: rest => by
    have ih := renderElems_false_comma (render v) rest
    simp only [renderElems, List.map_cons, commaJoin]
    rw [if_neg Bool.false_ne_true, ← ih]
    simp only [← String.append_assoc]

lemma renderElems_true_comma :
    ∀ vs : List Value, renderElems true vs = commaJoin (vs.map render)
  | [] => rfl
  | v :: rest => by
    simp only [renderElems, List.map_cons]
    rw [if_true, String.empty_append]
    exact renderElems_false_comma (render v) rest

lemma renderEntries_false_comma (s : String) :
    ∀ es : List (Value × Value),
      s ++ renderEntries false es =
        commaJoin (s :: es.map (fun p => render p.1 ++ " " ++ render p.2))
  | [] => by simp [renderEntries, commaJoin, String.append_empty]
  | ⟨k, v⟩ :: rest => by
    have ih := renderEntries_false_comma (render k ++ " " ++ render v) rest
    simp only [renderEntries, List.map_cons, commaJoin]
    rw [if_neg Bool.false_ne_true, ← ih]
    simp only [← String.append_assoc]

lemma renderEntries_true_comma :
    ∀ es : List (Value × Value),
      renderEntries true es =
        commaJoin (es.map (fun p => render p.1 ++ " " ++ render p.2))
  | [] => rfl
  | ⟨k, v⟩ :: rest => by
    simp only [renderEntries, List.map_cons]
    rw [if_true, String.empty_append]
    have ih := renderEntries_false_comma (render k ++ " " ++ render v) rest
    rw [← ih]

/-- C1: render produces exactly the text of the spec's variant table: `nil`,
`true`/`false`, raw string characters, the literal character, the symbol's
name, the keyword's name with no leading marker, decimal digits, the default
decimal rendering, and the bracketed comma-joined forms for List, Vector,
Map, Set and the `#tag value` form for Tagged. -/
theorem render_variant_table :
    render .nil = "nil"
    ∧ (∀ b, render (.boolean b) = if b then "true" else "false")
    ∧ (∀ s, render (.string s) = s)
    ∧ (∀ c, render (.char c) = String.singleton c)
    ∧ (∀ s, render (.symbol s) = s)
    ∧ (∀ k, render (.keyword k) = k)
    ∧ (∀ i : Int, render (.integer i) = toString i)
    ∧ (∀ r, render (.float r) = r)
    ∧ (∀ vs, render (.list vs) = "(" ++ commaJoin (vs.map render) ++ ")")
    ∧ (∀ vs, render (.vector vs) = "[" ++ commaJoin (vs.map render) ++ "]")
    ∧ (∀ es, render (.map es) =
        "\x7b" ++ commaJoin (es.map (fun p => render p.1 ++ " " ++ render p.2)) ++ "\x7d")
    ∧ (∀ vs, render (.set vs) = "#\x7b" ++ commaJoin (vs.map render) ++ "\x7d")
    ∧ (∀ t v, render (.tagged t v) = "#" ++ t ++ " " ++ render v) := by
  refine ⟨rfl, fun b => rfl, fun s => rfl, fun c => rfl, fun s => rfl, fun k => rfl,
    fun i => rfl, fun r => rfl, fun vs => ?_, fun vs => ?_, fun es => ?_, fun vs => ?_,
    fun t v => rfl⟩
  · rw [render, renderElems_true_comma]
  · rw [render, renderElems_true_comma]
  · rw [render, renderEntries_true_comma]
  · rw [render, renderElems_true_comma]

/-- C8: render is deterministic (two calls on the same value yield the same
string) and total (every value, hence every one of the 13 variants, renders
to some string: there is no error path inside the printer). -/
theorem render_deterministic_total :
    (∀ v : Value, render v = render v) ∧ (∀ v : Value, ∃ s : String, render v = s) :=
  ⟨fun _ => rfl, fun v => ⟨render v, rfl⟩⟩

/-! ### The sorted-list model of the column set -/

lemma charListLt_irrefl : ∀ l : List Char, charListLt l l = false
  | [] => rfl
  | a :: as => by simp [charListLt, lt_irrefl, charListLt_irrefl as]

lemma charListLt_cons_iff (a b : Char) (as bs : List Char) :
    charListLt (a :: as) (b :: bs) = true ↔
      a < b ∨ (a = b ∧ charListLt as bs = true) := by
  simp only [charListLt]
  split_ifs with h1 h2
  · simp [h1]
  · refine iff_of_false (by simp) ?_
    rintro (hab | ⟨rfl, _⟩)
    · exact h1 hab
    · exact lt_irrefl a h2
  · have heq : a = b := le_antisymm (not_lt.mp h2) (not_lt.mp h1)
    subst heq
    simp [lt_irrefl]

lemma charListLt_trans :
    ∀ (l₁ l₂ l₃ : List Char), charListLt l₁ l₂ = true → charListLt l₂ l₃ = true →
      charListLt l₁ l₃ = true
  | [], [], _, h12, _ => by simp [charListLt] at h12
  | [], _ :: _, [], _, h23 => by simp [charListLt] at h23
  | [], _ :: _, _ :: _, _, _ => rfl
  | _ :: _, [], _, h12, _ => by simp [charListLt] at h12
  | _ :: _, _ :: _, [], _, h23 => by simp [charListLt] at h23
  | a :: as, b :: bs, c :: cs, h12, h23 => by
    rw [charListLt_cons_iff] at h12 h23 ⊢
    rcases h12 with hab | ⟨rfl, h12⟩
    · rcases h23 with hbc | ⟨rfl, h23⟩
      · exact Or.inl (lt_trans hab hbc)
      · exact Or.inl hab
    · rcases h23 with hbc | ⟨rfl, h23⟩
      · exact Or.inl hbc
      · exact Or.inr ⟨rfl, charListLt_trans as bs cs h12 h23⟩

lemma charListLt_total :
    ∀ (l₁ l₂ : List Char), charListLt l₁ l₂ = false → l₁ ≠ l₂ →
      charListLt l₂ l₁ = true
  | [], [], _, hne => absurd rfl hne
  | [], _ :: _, h, _ => by simp [charListLt] at h
  | _ :: _, [], _, _ => rfl
  | a :: as, b :: bs, h, hne => by
    have hnot : ¬(a < b ∨ (a = b ∧ charListLt as bs = true)) := by
      rw [← charListLt_cons_iff a b as bs]
      simp [h]
    rw [charListLt_cons_iff]
    rcases lt_trichotomy a b with hab | rfl | hba
    · exact absurd (Or.inl hab) hnot
    · have hf : charListLt as bs = false := by
        cases hcb : charListLt as bs
        · rfl
        · exact absurd (Or.inr ⟨rfl, hcb⟩) hnot
      have hne2 : as ≠ bs := fun hd => hne (by rw [hd])
      exact Or.inr ⟨rfl, charListLt_total as bs hf hne2⟩
    · exact Or.inl hba

lemma strLt_irrefl (s : String) : strLt s s = false :=
  charListLt_irrefl s.data

lemma strLt_trans {a b c : String} (h1 : strLt a b = true) (h2 : strLt b c = true) :
    strLt a c = true :=
  charListLt_trans a.data b.data c.data h1 h2

lemma strLt_total {a b : String} (h : strLt a b = false) (hne : a ≠ b) :
    strLt b a = true := by
  refine charListLt_total a.data b.data h ?_
  intro hd
  apply hne
  cases a
  cases b
  exact congrArg String.mk hd

lemma mem_insertCol (a c : String) :
    ∀ cs : List String, a ∈ insertCol c cs ↔ a = c ∨ a ∈ cs
  | [] => by simp [insertCol]
  | x :: rest => by
    simp only [insertCol]
    split_ifs with h1 h2
    · simp [List.mem_cons]
    · subst h2
      simp only [List.mem_cons]
      tauto
    · simp only [List.mem_cons, mem_insertCol a c rest]
      tauto

lemma pairwise_insertCol (c : String) :
    ∀ cs : List String, cs.Pairwise (fun a b => strLt a b = true) →
      (insertCol c cs).Pairwise (fun a b => strLt a b = true)
  | [], _ => by simp [insertCol]
  | x :: rest, h => by
    rw [List.pairwise_cons] at h
    obtain ⟨hx, hrest⟩ := h
    simp only [insertCol]
    split_ifs with h1 h2
    · refine List.pairwise_cons.mpr ⟨?_, List.pairwise_cons.mpr ⟨hx, hrest⟩⟩
      intro b hb
      rcases List.mem_cons.mp hb with rfl | hb
      · exact h1
      · exact strLt_trans h1 (hx b hb)
    · exact List.pairwise_cons.mpr ⟨hx, hrest⟩
    · have hxc : strLt x c = true := strLt_total (by simpa using h1) h2
      refine List.pairwise_cons.mpr ⟨?_, pairwise_insertCol c rest hrest⟩
      intro b hb
      rcases (mem_insertCol b c rest).mp hb with rfl | hb
      · exact hxc
      · exact hx b hb

lemma mem_insertAll (a : String) :
    ∀ (ks cs : List String), a ∈ insertAll ks cs ↔ a ∈ ks ∨ a ∈ cs
  | [], cs => by simp [insertAll]
  | k :: ks, cs => by
    have ih := mem_insertAll a ks (insertCol k cs)
    simp only [insertAll, List.foldl_cons] at ih ⊢
    rw [ih, mem_insertCol]
    simp only [List.mem_cons]
    tauto

lemma pairwise_insertAll :
    ∀ (ks cs : List String), cs.Pairwise (fun a b => strLt a b = true) →
      (insertAll ks cs).Pairwise (fun a b => strLt a b = true)
  | [], _, h => h
  | k :: ks, cs, h => by
    simp only [insertAll, List.foldl_cons]
    exact pairwise_insertAll ks (insertCol k cs) (pairwise_insertCol k cs h)

/-! ### The ingestion loop -/

lemma step_nonmap (idx : Nat) (st : IngestState) (v : Value) (hv : v.isMap = false) :
    step idx st (.value v) =
      .ok ⟨st.records, st.columns,
           st.diags ++ ["Skipping non map on line " ++ toString idx]⟩ := by
  cases v <;> simp_all [step, Value.isMap]

lemma retainedMaps_cons_nonmap (v : Value) (rest : List LineResult)
    (hv : v.isMap = false) :
    retainedMaps (.value v :: rest) = retainedMaps rest := by
  cases v <;> simp_all [retainedMaps, Value.isMap]

lemma isMap_exists (v : Value) (hv : v.isMap = true) : ∃ m, v = .map m := by
  cases v <;> simp_all [Value.isMap]

lemma ingest_ok_spec :
    ∀ (input : List LineResult) (idx : Nat) (st st' : IngestState),
      ingest idx st input = .ok st' →
      st'.records = st.records ++ retainedMaps input ∧
      (∀ a, a ∈ st'.columns ↔
        a ∈ st.columns ∨ ∃ m, m ∈ retainedMaps input ∧ a ∈ keywordKeys m) ∧
      (st.columns.Pairwise (fun a b => strLt a b = true) →
        st'.columns.Pairwise (fun a b => strLt a b = true))
  | [], idx, st, st', h => by
    simp only [ingest] at h
    cases h
    simp [retainedMaps]
  | lr :: rest, idx, st, st', h => by
    cases lr with
    | blank =>
      simp only [ingest, step] at h
      have ih := ingest_ok_spec rest (idx + 1) st st' h
      simpa [retainedMaps] using ih
    | failure e =>
      simp [ingest, step] at h
    | value v =>
      by_cases hv : v.isMap = true
      · obtain ⟨m, rfl⟩ := isMap_exists v hv
        simp only [ingest, step] at h
        have ih := ingest_ok_spec rest (idx + 1) _ st' h
        obtain ⟨hr, hc, hs⟩ := ih
        refine ⟨?_, ?_, ?_⟩
        · rw [hr]
          simp [retainedMaps]
        · intro a
          rw [hc a]
          simp only [mem_insertAll, retainedMaps, List.mem_cons]
          constructor
          · rintro (⟨hk | hcs⟩ | ⟨m2, hm2, hk2⟩)
            · exact Or.inr ⟨m, Or.inl rfl, hk⟩
            · exact Or.inl hcs
            · exact Or.inr ⟨m2, Or.inr hm2, hk2⟩
          · rintro (hcs | ⟨m2, rfl | hm2, hk2⟩)
            · exact Or.inl (Or.inr hcs)
            · exact Or.inl (Or.inl hk2)
            · exact Or.inr ⟨m2, hm2, hk2⟩
        · intro hsort
          exact hs (pairwise_insertAll _ _ hsort)
      · replace hv : v.isMap = false := by simpa using hv
        rw [retainedMaps_cons_nonmap v rest hv]
        simp only [ingest, step_nonmap idx st v hv] at h
        have ih := ingest_ok_spec rest (idx + 1) _ st' h
        simpa using ih

lemma ingest_total :
    ∀ (input : List LineResult) (idx : Nat) (st : IngestState),
      (∀ lr ∈ input, lr.isFailure = false) →
      ∃ st', ingest idx st input = .ok st'
  | [], _, st, _ => ⟨st, rfl⟩
  | lr :: rest, idx, st, h => by
    have h0 : lr.isFailure = false := h lr (List.mem_cons_self lr rest)
    have hrest : ∀ x ∈ rest, x.isFailure = false :=
      fun x hx => h x (List.mem_cons_of_mem lr hx)
    cases lr with
    | blank =>
      obtain ⟨st', hst⟩ := ingest_total rest (idx + 1) st hrest
      exact ⟨st', by simp [ingest, step, hst]⟩
    | failure e =>
      simp [LineResult.isFailure] at h0
    | value v =>
      by_cases hv : v.isMap = true
      · obtain ⟨m, rfl⟩ := isMap_exists v hv
        obtain ⟨st', hst⟩ := ingest_total rest (idx + 1)
          ⟨st.records ++ [m], insertAll (keywordKeys m) st.columns,
           st.diags ++ nonKeywordDiags m⟩ hrest
        exact ⟨st', by simp [ingest, step, hst]⟩
      · replace hv : v.isMap = false := by simpa using hv
        obtain ⟨st', hst⟩ := ingest_total rest (idx + 1)
          ⟨st.records, st.columns,
           st.diags ++ ["Skipping non map on line " ++ toString idx]⟩ hrest
        refine ⟨st', ?_⟩
        simp only [ingest, step_nonmap idx st v hv]
        exact hst

lemma ingest_first_failure :
    ∀ (input : List LineResult) (i : Nat) (pe : ParseErr) (idx : Nat) (st : IngestState),
      input[i]? = some (.failure pe) →
      (∀ j, j < i → ∀ lr, input[j]? = some lr → lr.isFailure = false) →
      ∃ ds, ingest idx st input = .error (⟨idx + i, pe⟩, ds)
  | [], i, pe, idx, st, hi, _ => by simp at hi
  | lr :: rest, 0, pe, idx, st, hi, _ => by
    simp only [List.getElem?_cons_zero, Option.some.injEq] at hi
    subst hi
    exact ⟨st.diags, by simp [ingest, step]⟩
  | lr :: rest, i + 1, pe, idx, st, hi, hj => by
    have h0 : lr.isFailure = false :=
      hj 0 (Nat.succ_pos i) lr (List.getElem?_cons_zero)
    have hi2 : rest[i]? = some (.failure pe) := by simpa using hi
    have hj2 : ∀ j, j < i → ∀ x, rest[j]? = some x → x.isFailure = false :=
      fun j hjlt x hx => hj (j + 1) (Nat.succ_lt_succ hjlt) x (by simpa using hx)
    have harith : idx + 1 + i = idx + (i + 1) := by omega
    cases lr with
    | blank =>
      obtain ⟨ds, hds⟩ := ingest_first_failure rest i pe (idx + 1) st hi2 hj2
      rw [harith] at hds
      exact ⟨ds, by simp [ingest, step, hds]⟩
    | failure e =>
      simp [LineResult.isFailure] at h0
    | value v =>
      by_cases hv : v.isMap = true
      · obtain ⟨m, rfl⟩ := isMap_exists v hv
        obtain ⟨ds, hds⟩ := ingest_first_failure rest i pe (idx + 1)
          ⟨st.records ++ [m], insertAll (keywordKeys m) st.columns,
           st.diags ++ nonKeywordDiags m⟩ hi2 hj2
        rw [harith] at hds
        exact ⟨ds, by simp [ingest, step, hds]⟩
      · replace hv : v.isMap = false := by simpa using hv
        obtain ⟨ds, hds⟩ := ingest_first_failure rest i pe (idx + 1)
          ⟨st.records, st.columns,
           st.diags ++ ["Skipping non map on line " ++ toString idx]⟩ hi2 hj2
        rw [harith] at hds
        refine ⟨ds, ?_⟩
        simp only [ingest, step_nonmap idx st v hv]
        exact hds

/-! ### Keys and lookups -/

lemma keywordKeys_mem (m : EdnMap) (a : String) :
    a ∈ keywordKeys m ↔ ∃ p ∈ m, p.1 = Value.keyword a := by
  simp only [keywordKeys, List.mem_filterMap]
  constructor
  · rintro ⟨p, hp, hf⟩
    refine ⟨p, hp, ?_⟩
    cases hq : p.1 <;> simp [hq] at hf
    simp [hf]
  · rintro ⟨p, hp, hf⟩
    exact ⟨p, hp, by simp [hf]⟩

lemma nonKeywordDiags_eq :
    ∀ m : EdnMap, nonKeywordDiags m =
      (m.filter (fun p => !p.1.isKeyword)).map
        (fun p => "Skipping non keyword key: " ++ render p.1)
  | [] => rfl
  | p :: rest => by
    have ih := nonKeywordDiags_eq rest
    cases hq : p.1 <;>
      simp_all [nonKeywordDiags, Value.isKeyword, List.filterMap_cons, List.filter_cons, hq]

lemma isKeywordNamed_false (c : String) (k : Value) (hk : k.isKeyword = false) :
    isKeywordNamed c k = false := by
  cases k <;> simp_all [isKeywordNamed, Value.isKeyword]

lemma getKeyword_skip_nonkeyword (k v : Value) (c : String) (hk : k.isKeyword = false) :
    ∀ m₁ m₂ : EdnMap,
      getKeyword (m₁ ++ (k, v) :: m₂) c = getKeyword (m₁ ++ m₂) c
  | [], m₂ => by
    simp [getKeyword, isKeywordNamed_false c k hk]
  | q :: m₁, m₂ => by
    obtain ⟨qk, qv⟩ := q
    simp only [List.cons_append, getKeyword, List.append_eq]
    rw [getKeyword_skip_nonkeyword k v c hk m₁ m₂]

/-! ### What a successful run produces -/

lemma run_ok_spec (input : List LineResult) (out : RunOutput)
    (h : run input = .ok out) :
    out.header.Pairwise (fun a b => strLt a b = true) ∧
    (∀ a, a ∈ out.header ↔ ∃ m, m ∈ retainedMaps input ∧ a ∈ keywordKeys m) ∧
    out.rows = (retainedMaps input).map (rowFor out.header) := by
  unfold run at h
  cases hing : ingest 0 ⟨[], [], []⟩ input with
  | error e =>
    rw [hing] at h
    simp at h
  | ok st =>
    rw [hing] at h
    simp only [Except.ok.injEq] at h
    subst h
    obtain ⟨hr, hc, hs⟩ := ingest_ok_spec input 0 ⟨[], [], []⟩ st hing
    refine ⟨hs (by simp), ?_, ?_⟩
    · intro a
      rw [hc a]
      simp
    · simp only [hr]
      simp

/-- C2: when every line parses, every Keyword key occurring in at least one
retained Map record appears exactly once in the header, and the header is in
lexicographic (strictly increasing) order of the key strings. -/
theorem header_lex_dedup_union (input : List LineResult) (out : RunOutput)
    (h : run input = .ok out) :
    out.header.Pairwise (fun a b => strLt a b = true) ∧
    (∀ a, a ∈ out.header ↔ ∃ m, m ∈ retainedMaps input ∧ a ∈ keywordKeys m) ∧
    (∀ a ∈ out.header, out.header.count a = 1) := by
  obtain ⟨hsort, hmem, _⟩ := run_ok_spec input out h
  have hnd : out.header.Nodup := by
    refine hsort.imp ?_
    intro a b hab heq
    rw [heq, strLt_irrefl] at hab
    cases hab
  exact ⟨hsort, hmem, fun a ha => List.count_eq_one_of_mem hnd ha⟩

/-- C2 witness: two one-map lines sharing the key `b` out of order; the
header is `a`, `b` and `b` occurs exactly once. -/
theorem header_lex_dedup_union_witness :
    (["a", "b"] : List String).Pairwise (fun a b => strLt a b = true) ∧
    ("b" ∈ (["a", "b"] : List String) ↔
      ∃ m, m ∈ retainedMaps
          [LineResult.value (.map [(Value.keyword "b", Value.integer 2),
                                   (Value.keyword "a", Value.integer 1)]),
           LineResult.value (.map [(Value.keyword "a", Value.integer 3)])] ∧
        "b" ∈ keywordKeys m) ∧
    List.count "b" ["a", "b"] = 1 := by
  have h := header_lex_dedup_union
    [LineResult.value (.map [(Value.keyword "b", Value.integer 2),
                             (Value.keyword "a", Value.integer 1)]),
     LineResult.value (.map [(Value.keyword "a", Value.integer 3)])]
    ⟨["a", "b"], [["1", "2"], ["3", ""]], []⟩ (by rfl)
  exact ⟨h.1, h.2.1 "b", h.2.2 "b" (by decide)⟩

/-- C3: every emitted row has exactly one field per header column, rows are
exactly one per retained record in order, and a column whose Keyword key is
absent from the record yields the empty-string field (written, not
omitted). -/
theorem rows_rectangular (input : List LineResult) (out : RunOutput)
    (h : run input = .ok out) :
    (∀ row ∈ out.rows, row.length = out.header.length) ∧
    out.rows = (retainedMaps input).map (rowFor out.header) ∧
    (∀ (m : EdnMap) (c : String), getKeyword m c = none → cellFor m c = "") := by
  obtain ⟨_, _, hrows⟩ := run_ok_spec input out h
  refine ⟨?_, hrows, ?_⟩
  · intro row hrow
    rw [hrows] at hrow
    obtain ⟨m, _, rfl⟩ := List.mem_map.mp hrow
    simp [rowFor]
  · intro m c hnone
    simp [cellFor, hnone]

/-- C3 witness: one record with key `a` and one empty record; the second row
is the single empty field. -/
theorem rows_rectangular_witness :
    (["1"] : List String).length = (["a"] : List String).length ∧
    ([["1"], [""]] : List (List String)) =
      (retainedMaps [LineResult.value (.map [(Value.keyword "a", Value.integer 1)]),
                     LineResult.value (.map [])]).map (rowFor ["a"]) ∧
    cellFor [(Value.keyword "a", Value.integer 1)] "zzz" = "" := by
  have h := rows_rectangular
    [LineResult.value (.map [(Value.keyword "a", Value.integer 1)]),
     LineResult.value (.map [])]
    ⟨["a"], [["1"], [""]], []⟩ (by rfl)
  exact ⟨h.1 ["1"] (by decide), h.2.1,
    h.2.2 [(Value.keyword "a", Value.integer 1)] "zzz" (by rfl)⟩

/-- C4: a parse failure on any line (here: the first failing line) aborts the
run with exit code 1, writes nothing to standard output (zero header and data
records), and the last standard-error line is `error: <message>` where the
message carries the 0-based line number, the parser's byte offsets and its
message. -/
theorem parse_failure_aborts (input : List LineResult) (i : Nat) (pe : ParseErr)
    (hi : input[i]? = some (.failure pe))
    (hj : ∀ j, j < i → ∀ lr, input[j]? = some lr → lr.isFailure = false) :
    (mainRun input).exitCode = 1 ∧
    (mainRun input).stdout = [] ∧
    (∃ ds, (mainRun input).stderr = ds ++ ["error: " ++ errMessage ⟨i, pe⟩]) ∧
    errMessage ⟨i, pe⟩ =
      toString i ++ " (" ++ toString pe.lo ++ ", " ++ toString pe.hi ++ "): "
        ++ pe.message ++ " " := by
  obtain ⟨ds, hds⟩ := ingest_first_failure input i pe 0 ⟨[], [], []⟩ hi hj
  rw [Nat.zero_add] at hds
  have hrun : run input = .error (⟨i, pe⟩, ds) := by
    unfold run
    rw [hds]
  refine ⟨?_, ?_, ⟨ds, ?_⟩, rfl⟩ <;> simp [mainRun, hrun]

/-- C4 witness: the failure on line 1 of a concrete two-line input. -/
theorem parse_failure_aborts_witness :
    (mainRun [LineResult.blank, LineResult.failure ⟨2, 4, "invalid edn"⟩]).exitCode = 1 ∧
    (mainRun [LineResult.blank, LineResult.failure ⟨2, 4, "invalid edn"⟩]).stdout = [] ∧
    (∃ ds, (mainRun [LineResult.blank, LineResult.failure ⟨2, 4, "invalid edn"⟩]).stderr =
      ds ++ ["error: " ++ errMessage ⟨1, ⟨2, 4, "invalid edn"⟩⟩]) ∧
    errMessage ⟨1, ⟨2, 4, "invalid edn"⟩⟩ =
      toString 1 ++ " (" ++ toString 2 ++ ", " ++ toString 4 ++ "): "
        ++ "invalid edn" ++ " " := by
  apply parse_failure_aborts
  · rfl
  · intro j hjlt lr hlr
    have hj0 : j = 0 := by omega
    subst hj0
    simp only [List.getElem?_cons_zero, Option.some.injEq] at hlr
    subst hlr
    rfl

/-- C5: a line whose parsed value is not a Map leaves the records and columns
untouched and appends exactly one diagnostic `Skipping non map on line <N>`
with the 0-based line index; and a run with no parse failure exits 0. -/
theorem nonmap_line_skipped :
    (∀ (idx : Nat) (st : IngestState) (v : Value), v.isMap = false →
        step idx st (.value v) =
          .ok ⟨st.records, st.columns,
               st.diags ++ ["Skipping non map on line " ++ toString idx]⟩) ∧
    (∀ input : List LineResult, (∀ lr ∈ input, lr.isFailure = false) →
        (mainRun input).exitCode = 0) := by
  refine ⟨step_nonmap, ?_⟩
  intro input hinput
  obtain ⟨st, hst⟩ := ingest_total input 0 ⟨[], [], []⟩ hinput
  have hrun : run input = .ok ⟨st.columns, st.records.map (rowFor st.columns), st.diags⟩ := by
    unfold run
    rw [hst]
  simp [mainRun, hrun]

/-- C5 witness: a Vector on line 0 of a one-line input. -/
theorem nonmap_line_skipped_witness :
    step 0 ⟨[], [], []⟩ (.value (.vector [.integer 1])) =
      .ok ⟨[], [], ["Skipping non map on line 0"]⟩ ∧
    (mainRun [LineResult.value (.vector [.integer 1])]).exitCode = 0 := by
  constructor
  · exact nonmap_line_skipped.1 0 ⟨[], [], []⟩ (.vector [.integer 1]) rfl
  · exact nonmap_line_skipped.2 [LineResult.value (.vector [.integer 1])] (by decide)

/-- C6: a Map line is retained whole; only its Keyword keys feed the column
set; each non-Keyword key yields exactly one diagnostic; and an entry with a
non-Keyword key can never be the result of a column lookup, so it affects no
emitted cell. -/
theorem nonkeyword_key_skipped :
    (∀ (idx : Nat) (st : IngestState) (m : EdnMap),
        step idx st (.value (.map m)) =
          .ok ⟨st.records ++ [m], insertAll (keywordKeys m) st.columns,
               st.diags ++ nonKeywordDiags m⟩) ∧
    (∀ (m : EdnMap) (a : String),
        a ∈ keywordKeys m ↔ ∃ p ∈ m, p.1 = Value.keyword a) ∧
    (∀ m : EdnMap, nonKeywordDiags m =
        (m.filter (fun p => !p.1.isKeyword)).map
          (fun p => "Skipping non keyword key: " ++ render p.1)) ∧
    (∀ (m₁ m₂ : EdnMap) (k v : Value) (c : String), k.isKeyword = false →
        getKeyword (m₁ ++ (k, v) :: m₂) c = getKeyword (m₁ ++ m₂) c) :=
  ⟨fun _ _ _ => rfl, keywordKeys_mem, nonKeywordDiags_eq,
   fun m₁ m₂ k v c hk => getKeyword_skip_nonkeyword k v c hk m₁ m₂⟩

/-- C6 witness: a record with the non-Keyword key `1` next to the Keyword
key `a`; the lookup of column `a` is unaffected by removing the entry. -/
theorem nonkeyword_key_skipped_witness :
    step 0 ⟨[], [], []⟩
        (.value (.map [(Value.integer 1, Value.nil), (Value.keyword "a", Value.integer 2)])) =
      .ok ⟨[[(Value.integer 1, Value.nil), (Value.keyword "a", Value.integer 2)]],
           insertAll
             (keywordKeys [(Value.integer 1, Value.nil), (Value.keyword "a", Value.integer 2)])
             [],
           nonKeywordDiags [(Value.integer 1, Value.nil), (Value.keyword "a", Value.integer 2)]⟩ ∧
    getKeyword [(Value.integer 1, Value.nil), (Value.keyword "a", Value.integer 2)] "a" =
      getKeyword [(Value.keyword "a", Value.integer 2)] "a" := by
  constructor
  · exact nonkeyword_key_skipped.1 0 ⟨[], [], []⟩
      [(Value.integer 1, Value.nil), (Value.keyword "a", Value.integer 2)]
  · exact nonkeyword_key_skipped.2.2.2 [] [(Value.keyword "a", Value.integer 2)]
      (Value.integer 1) Value.nil "a" rfl

/-- C7 (amended): the diagnostic for each non-Keyword key of a retained Map
record is exactly `Skipping non keyword key: <rendered-key>`: it names the
offending key's rendered text but not the line number — processing a Map line
is independent of the line index. -/
theorem nonkeyword_diag_line_independent (idx idx2 : Nat) (st : IngestState) (m : EdnMap) :
    step idx st (.value (.map m)) = step idx2 st (.value (.map m)) ∧
    nonKeywordDiags m =
      (m.filter (fun p => !p.1.isKeyword)).map
        (fun p => "Skipping non keyword key: " ++ render p.1) :=
  ⟨rfl, nonKeywordDiags_eq m⟩

/-- C7 counterexample: for the record `{1 2}` on line 5 (0-based), the only
diagnostic the run emits is `Skipping non keyword key: 1`, a string in which
the character `5` does not occur — so the diagnostic does not name the line
number, contrary to the claim. -/
theorem nonkeyword_diag_no_linenum_cex :
    run [LineResult.blank, .blank, .blank, .blank, .blank,
         .value (.map [(Value.integer 1, Value.integer 2)])] =
      .ok ⟨[], [[]], ["Skipping non keyword key: 1"]⟩ ∧
    ("Skipping non keyword key: 1").data.contains '5' = false := by
  constructor
  · rfl
  · decide

/-- C9: on empty input the program exits 0 and writes exactly the header
record with zero fields; the same holds for any failure-free input that
retains no Map record. -/
theorem empty_input_header_only :
    mainRun [] = ⟨0, [[]], []⟩ ∧
    (∀ input : List LineResult, (∀ lr ∈ input, lr.isFailure = false) →
        retainedMaps input = [] →
        (mainRun input).exitCode = 0 ∧ (mainRun input).stdout = [[]]) := by
  refine ⟨rfl, ?_⟩
  intro input hnf hret
  obtain ⟨st, hst⟩ := ingest_total input 0 ⟨[], [], []⟩ hnf
  obtain ⟨hr, hc, _⟩ := ingest_ok_spec input 0 ⟨[], [], []⟩ st hst
  rw [hret] at hr hc
  have hrec : st.records = [] := by simpa using hr
  have hcols : st.columns = [] := by
    rw [List.eq_nil_iff_forall_not_mem]
    intro a ha
    have hmem := (hc a).mp ha
    simp at hmem
  have hrun : run input = .ok ⟨st.columns, st.records.map (rowFor st.columns), st.diags⟩ := by
    unfold run
    rw [hst]
  simp [mainRun, hrun, hrec, hcols]

/-- C9 witness: a one-line input whose only value is not a Map. -/
theorem empty_input_header_only_witness :
    (mainRun [LineResult.value (Value.integer 7)]).exitCode = 0 ∧
    (mainRun [LineResult.value (Value.integer 7)]).stdout = [[]] :=
  empty_input_header_only.2 [LineResult.value (Value.integer 7)] (by decide) rfl

/-- C10: a record none of whose keys is a Keyword matching any column (in
particular the empty map) yields a row of all-empty fields; the empty map
produces no diagnostic at all; and every retained record yields exactly one
row. -/
theorem no_matching_column_row_empty :
    (∀ (cols : List String) (m : EdnMap), (∀ c, getKeyword m c = none) →
        rowFor cols m = cols.map (fun _ => "")) ∧
    (∀ (idx : Nat) (st : IngestState),
        step idx st (.value (.map [])) =
          .ok ⟨st.records ++ [[]], st.columns, st.diags⟩) ∧
    (∀ (input : List LineResult) (out : RunOutput), run input = .ok out →
        out.rows.length = (retainedMaps input).length) := by
  refine ⟨?_, ?_, ?_⟩
  · intro cols m h
    unfold rowFor
    apply List.map_congr_left
    intro c _
    simp [cellFor, h c]
  · intro idx st
    simp [step, keywordKeys, nonKeywordDiags, insertAll]
  · intro input out h
    obtain ⟨_, _, hrows⟩ := run_ok_spec input out h
    rw [hrows, List.length_map]

/-- C10 witness: the empty map as the only record. -/
theorem no_matching_column_row_empty_witness :
    rowFor ["a", "b"] ([] : EdnMap) = ["", ""] ∧
    step 3 ⟨[], ["a"], ["d"]⟩ (.value (.map [])) = .ok ⟨[[]], ["a"], ["d"]⟩ ∧
    (⟨[], [[]], []⟩ : RunOutput).rows.length =
      (retainedMaps [LineResult.value (.map [])]).length := by
  refine ⟨?_, ?_, ?_⟩
  · exact no_matching_column_row_empty.1 ["a", "b"] [] (fun c => rfl)
  · exact no_matching_column_row_empty.2.1 3 ⟨[], ["a"], ["d"]⟩
  · exact no_matching_column_row_empty.2.2 [LineResult.value (.map [])] ⟨[], [[]], []⟩ rfl

example : render (.tagged "inst" (.string "xy")) = "#inst xy" := by rfl
example : render (.set [.integer 1, .integer (-2)]) = "#\x7b1,-2\x7d" := by rfl
example : render (.map [(.keyword "a", .vector [.nil, .boolean true])]) = "\x7ba [nil,true]\x7d" := by rfl
example : render (.list []) = "()" := by rfl
example :
    mainRun [.value (.map [(Value.keyword "a", .integer 1), (Value.keyword "b", .integer 2)]),
             .value (.map [(Value.keyword "a", .integer 3)])] =
      ⟨0, [["a", "b"], ["1", "2"], ["3", ""]], []⟩ := by rfl
example :
    mainRun [.value (.vector [.integer 1, .integer 2, .integer 3])] =
      ⟨0, [[]], ["Skipping non map on line 0"]⟩ := by rfl
example :
    mainRun [.failure ⟨4, 4, "eof"⟩] =
      ⟨1, [], ["error: 0 (4, 4): eof "]⟩ := by rfl
example : strLt "a" "b" = true := by rfl
example : strLt "ab" "b" = true := by rfl
example : strLt "b" "ab" = false := by rfl
example : strLt "a" "ab" = true := by rfl

end Edn2Csv
